import Mathlib

/-!
Shallow embedding of `src/book_maker/translator/chatgptapi_translator.py`
(class `ChatGPTAPI`), covering the response parse, the alignment-reconciler
retry loop (`get_best_result_list`), the cost ledger, the model routing of
`create_chat_completion_2pass`, and the exception handling of
`get_translation` / `translate`.

Text is modelled as `List Char`.  The remote service is an oracle parameter:
a call's outcome is an `Except` value, and the successive outcomes of repeated
calls are given by a function from the call index.
-/

/-! ### Python string helpers -/

/-- Whitespace characters stripped by Python `str.strip()` and matched by the
regex class backslash-s (the principal set; a handful of exotic Unicode spaces
such as U+2000..U+200A are omitted, which only treats a few more strings as
already stripped). -/
def isPySpace (c : Char) : Bool :=
  c == ' ' || c == '\t' || c == '\n' || c == '\r' || c == '\x0b' || c == '\x0c' ||
  c == '\x1c' || c == '\x1d' || c == '\x1e' || c == '\x1f' || c == '\x85' ||
  c == '\xa0' || c == '\u2028' || c == '\u2029'

/-- Characters at which Python `str.splitlines()` breaks a line. -/
def isLineBreakChar (c : Char) : Bool :=
  c == '\n' || c == '\r' || c == '\x0b' || c == '\x0c' ||
  c == '\x1c' || c == '\x1d' || c == '\x1e' || c == '\x85' ||
  c == '\u2028' || c == '\u2029'

/-- Python `str.splitlines()`, modelled per line-break character.  Python merges
a CRLF pair into a single break where this model yields an extra empty piece;
the only caller (`translate_and_split_lines`, line 223) discards blank lines
right after, so the composed parse is unchanged. -/
def splitlines : List Char → List (List Char)
  | [] => []
  | c :: rest =>
    if isLineBreakChar c then [] :: splitlines rest
    else
      match splitlines rest with
      | [] => [[c]]
      | l :: ls => (c :: l) :: ls

/-- Whether the first list is an initial run of the second. -/
def leadsWith : List Char → List Char → Bool
  | [], _ => true
  | _ :: _, [] => false
  | a :: as, b :: bs => a == b && leadsWith as bs

/-- Python substring containment `pat in s`. -/
def occursIn (pat : List Char) : List Char → Bool
  | [] => leadsWith pat []
  | c :: rest => leadsWith pat (c :: rest) || occursIn pat rest

/-- Python `str.strip()`: drop whitespace from both ends. -/
def pyStrip (s : List Char) : List Char :=
  ((s.dropWhile isPySpace).reverse.dropWhile isPySpace).reverse

/-- Lines 222-223: split the translated text into lines, strip each line and
drop the blank ones (the parsing step of `translate_and_split_lines`). -/
def split_strip_lines (t : List Char) : List (List Char) :=
  ((splitlines t).map pyStrip).filter (fun l => !l.isEmpty)

/-- Line 367: strip one leading ordinal marker of the form `(n)`, `n.` or a
bare integer, together with the whitespace that follows it — the effect of
`re.sub` with the anchored pattern, alternatives tried in source order with
greedy digit runs.  Digits are modelled as ASCII digits. -/
def strip_ordinal (s : List Char) : List Char :=
  if s.head? = some '(' then
    -- first alternative: an opening parenthesis, a nonempty digit run, a
    -- closing parenthesis
    let rest := s.drop 1
    let ds := rest.takeWhile Char.isDigit
    let after := rest.drop ds.length
    if ds ≠ [] ∧ after.head? = some ')' then (after.drop 1).dropWhile isPySpace
    else s
  else
    -- remaining alternatives need a digit at position 0: a digit run followed
    -- by a dot, else the bare digit run
    let ds := s.takeWhile Char.isDigit
    let after := s.drop ds.length
    if ds = [] then s
    else if after.head? = some '.' then (after.drop 1).dropWhile isPySpace
    else after.dropWhile isPySpace

/-- The full per-segment response parse the spec describes: split into lines,
strip, drop blanks (lines 222-223), then strip a leading ordinal marker from
each segment (line 367). -/
def parse_segments (t : List Char) : List (List Char) :=
  (split_strip_lines t).map strip_ordinal

/-- Reassemble parsed segments into one text, one segment per line. -/
def joinNL : List (List Char) → List Char
  | [] => []
  | [x] => x
  | x :: xs => x ++ '\n' :: joinNL xs

/-! ### Alignment reconciler (`get_best_result_list`, lines 226-258) -/

/-- Lines 248-255: the guard under which a freshly parsed `result_list`
replaces `best_result_list`, in source order (the chained comparison
`len(best) < len(result) <= plist_len` is the conjunction of its two parts). -/
def accept_result {α : Type} (plist_len : ℕ) (best new : List α) : Bool :=
  decide (new.length = plist_len) ||
  (decide (best.length < new.length) && decide (new.length ≤ plist_len)) ||
  (decide (new.length < best.length) && decide (best.length > plist_len))

/-- Lines 240-257: the retry loop of `get_best_result_list`.  `fuel` is the
number of iterations still allowed (`max_retries - retry_count`), kept in sync
with the explicit `retry_count`; `f k` is the list parsed from the `k`-th
re-translation of `new_str` (the sleep and the prints are effects with no
influence on the result). -/
def gbrl_loop {α : Type} (plist_len : ℕ) (f : ℕ → List α) :
    ℕ → ℕ → List α → List α → List α × ℕ
  | 0, retry_count, _, best => (best, retry_count)
  | fuel + 1, retry_count, result, best =>
    if result.length = plist_len then (best, retry_count)
    else
      let rc := retry_count + 1
      let result2 := f rc
      let best2 := if accept_result plist_len best result2 then result2 else best
      gbrl_loop plist_len f fuel rc result2 best2

/-- Lines 226-258: `get_best_result_list(plist_len, new_str, sleep_dur,
result_list, max_retries)`.  The re-translation
`translate_and_split_lines(new_str)` performed on retry `k` is the oracle
`f k`. -/
def get_best_result_list {α : Type} (plist_len : ℕ) (f : ℕ → List α)
    (result_list : List α) (max_retries : ℕ) : List α × ℕ :=
  if result_list.length = plist_len then (result_list, 0)
  else gbrl_loop plist_len f max_retries 0 result_list result_list

/-! ### Cost ledger (lines 146-151) -/

/-- The substring `"16k"` tested against `completion['model']`. -/
def k16 : List Char := "16k".toList

/-- Lines 146-151: the fare calculation of `get_translation` — the updated
`(prompt_spent, completion_spent)` pair.  The Python literal `1.5` is the
rational `3 / 2`. -/
def fare (model : List Char) (prompt_tokens completion_tokens : ℕ)
    (prompt_spent completion_spent : ℚ) : ℚ × ℚ :=
  if occursIn k16 model then
    (prompt_spent + prompt_tokens * 3, completion_spent + completion_tokens * 4)
  else
    (prompt_spent + prompt_tokens * (3 / 2), completion_spent + completion_tokens * 2)

/-! ### Model routing (`create_chat_completion_2pass`, lines 85-104) -/

def gpt35turbo : List Char := "gpt-3.5-turbo".toList

def gpt35turbo16k : List Char := "gpt-3.5-turbo-16k".toList

/-- Where `create_chat_completion_2pass` sends the request: a private
deployment (`engine=...`) or a model of the public family. -/
inductive Route where
  | engine (deployment_id : List Char)
  | chatModel (name : List Char)

/-- Python truthiness of the optional string `self.deployment_id`
(`None` and the empty string are falsy). -/
def pyTruthyStr : Option (List Char) → Bool
  | none => false
  | some s => !s.isEmpty

/-- Lines 85-104: the routing decision of `create_chat_completion_2pass`.
`text_length` stands for `count_tokens(system_message + translation_prompt +
text + "OK")` (line 92); the tokenizer itself is the external `tiktoken`
library, out of scope per the spec. -/
def route_2pass (deployment_id : Option (List Char)) (text_length : ℕ) : Route :=
  if pyTruthyStr deployment_id then Route.engine (deployment_id.getD [])
  else if text_length ≤ 1200 then Route.chatModel gpt35turbo
  else Route.chatModel gpt35turbo16k

/-! ### get_translation (lines 129-176) -/

structure Choice where
  finish_reason : List Char
  content : List Char

structure Usage where
  prompt_tokens : ℕ
  completion_tokens : ℕ

/-- A successful response of `openai.ChatCompletion.create`: the fields
`get_translation` reads (`choices`, `model`, `usage`). -/
structure Completion where
  choices : List Choice
  model : List Char
  usage : Usage

/-- An exception escaping the remote call.  `payloadAtFailure` records what the
service had produced before the transport failed — information carried along
for the statement of the claims, invisible to the code, whose local variable
`completion` never received it.  `indexError` models the IndexError Python
raises at line 155 when a returned payload has an empty `choices` list. -/
inductive ApiError where
  | exn (payloadAtFailure : Option Completion)
  | indexError

/-- The value of the local variable `completion` inside `get_translation`: the
empty dict it is initialized to at line 132, or the payload assigned at
line 134 when the call returned. -/
inductive CompletionVar where
  | emptyDict
  | payload (c : Completion)

/-- Whether `'choices' in completion` holds for the current value of the
variable (the empty dict has no keys). -/
def hasChoicesKey : CompletionVar → Bool
  | .emptyDict => false
  | .payload _ => true

/-- The `completion["choices"]` list (empty dict: no such key; the guard at
line 137 tests for that before any access). -/
def choicesOf : CompletionVar → List Choice
  | .emptyDict => []
  | .payload c => c.choices

def lengthStr : List Char := "length".toList

/-- Lines 136-143: the guard of the `except` branch — `True` exactly when
`get_translation` re-raises: `choices` missing (or, in Python, not a list —
always a list in this model), or empty, or the last choice's `finish_reason`
differs from `"length"`. -/
def exceptReraises (v : CompletionVar) : Bool :=
  !hasChoicesKey v || (choicesOf v).isEmpty ||
    !(((choicesOf v).getLastD ⟨[], []⟩).finish_reason == lengthStr)

/-- Python `str.replace` of the two-character sequence backslash-`n` by a
newline (line 176). -/
def replaceEscapedNL : List Char → List Char
  | [] => []
  | '\\' :: 'n' :: rest => '\n' :: replaceEscapedNL rest
  | c :: rest => c :: replaceEscapedNL rest

/-- Modelled from the spec: `rotate_key` (line 55) draws `next(self.keys)`,
where `self.keys` is the credential cycle built in the `Base` class
(`base_translator.py`, not under `src/`); per spec section 3 the cursor
advances exactly once per attempt, wrapping modulo pool size. -/
def rotate_key (key_len cur : ℕ) : ℕ := (cur + 1) % key_len

/-- The observable outcome of one `get_translation` call: the returned
`t_text` (or the exception it raises), the credential cursor after
`rotate_key`, the updated ledger, and whether the source text was appended to
`log/long_text.txt` (lines 166-174). -/
structure GTResult where
  out : Except ApiError (List Char)
  cur : ℕ
  prompt_spent : ℚ
  completion_spent : ℚ
  longTextLogged : Bool

/-- Lines 129-176: `get_translation`.  `call` is the outcome of
`create_chat_completion_2pass(text)`; `extract` abstracts the
`better_translation` regex search at lines 158-164 (it returns the captured
group when the pattern matches and the whole `response_text` otherwise);
`cur` and `key_len` are the credential cursor and pool size. -/
def get_translation (extract : List Char → List Char)
    (call : Except ApiError Completion) (cur key_len : ℕ)
    (prompt_spent completion_spent : ℚ) : GTResult :=
  let cur2 := rotate_key key_len cur
  match call with
  | .error e =>
    -- the assignment at line 134 did not happen: `completion` is the empty dict
    if exceptReraises CompletionVar.emptyDict then
      ⟨.error e, cur2, prompt_spent, completion_spent, false⟩
    else
      -- unreachable: Python would next raise KeyError reading
      -- completion['model'] from the empty dict at line 146
      ⟨.error e, cur2, prompt_spent, completion_spent, false⟩
  | .ok c =>
    let spent := fare c.model c.usage.prompt_tokens c.usage.completion_tokens
      prompt_spent completion_spent
    match (choicesOf (CompletionVar.payload c)).getLast? with
    | none => ⟨.error ApiError.indexError, cur2, spent.1, spent.2, false⟩
    | some choice =>
      let response_text := extract choice.content
      let t_text := replaceEscapedNL response_text
      let logged := choice.finish_reason == lengthStr
      ⟨.ok t_text, cur2, spent.1, spent.2, logged⟩

/-! ### translate (lines 178-218) -/

def directTransKey : List Char := "\"direct_trans\":".toList

def transKey : List Char := "_trans\":".toList

/-- The last element of Python `s.split(sep)`: the remainder of `s` after the
final non-overlapping occurrence of `sep`, scanning left to right (used at
line 196). -/
def lastSplitPiece (sep : List Char) (s : List Char) : List Char :=
  match s with
  | [] => []
  | c :: rest =>
    if hp : sep ≠ [] ∧ leadsWith sep (c :: rest) then
      lastSplitPiece sep ((c :: rest).drop sep.length)
    else if occursIn sep rest then
      lastSplitPiece sep rest
    else c :: rest
termination_by s.length
decreasing_by
  all_goals simp only [List.length_drop, List.length_cons]
  · have : 0 < sep.length := List.length_pos.mpr hp.1
    omega
  · omega

/-- The instrumented state threaded through the `translate` attempt loop:
credential cursor, ledger, the list of sleeps performed (each entry a duration
in seconds), the number of `get_translation` calls made, and the number of
those calls that raised. -/
structure TrState where
  cur : ℕ
  prompt_spent : ℚ
  completion_spent : ℚ
  sleeps : List ℕ
  calls : ℕ
  fails : ℕ

structure TrOutcome where
  result : Except ApiError (List Char)
  st : TrState

/-- Lines 188-209: the `while attempt_count < max_attempts` loop of
`translate`, with `max_attempts = 3`.  `fuel` is `max_attempts -
attempt_count`, kept in sync with the explicit `ac`; `svc i` is the service
response to the `i`-th `create_chat_completion_2pass` call of this
`translate` invocation.  On exception the loop sleeps `int(60 / key_len)`
seconds (line 203; integer division since `key_len ≥ 1`), increments the
counter and raises when it reached 3 (lines 206-209).  A response containing
`"direct_trans":` on the first attempt is retried without sleeping (lines
191-194); later responses containing `_trans":` are reduced to their last
split piece (lines 195-196). -/
def translate_go (extract : List Char → List Char)
    (svc : ℕ → Except ApiError Completion) (key_len : ℕ) :
    ℕ → ℕ → TrState → TrOutcome
  | 0, _, st => ⟨.ok [], st⟩
  | fuel + 1, ac, st =>
    let g := get_translation extract (svc st.calls) st.cur key_len
      st.prompt_spent st.completion_spent
    let st1 : TrState := ⟨g.cur, g.prompt_spent, g.completion_spent,
      st.sleeps, st.calls + 1, st.fails⟩
    match g.out with
    | .ok t =>
      if occursIn directTransKey t && ac == 0 then
        translate_go extract svc key_len fuel (ac + 1) st1
      else if occursIn transKey t && decide (0 < ac) then
        ⟨.ok (lastSplitPiece transKey t), st1⟩
      else ⟨.ok t, st1⟩
    | .error e =>
      let st2 : TrState := ⟨st1.cur, st1.prompt_spent, st1.completion_spent,
        st1.sleeps ++ [60 / key_len], st1.calls, st1.fails + 1⟩
      if ac + 1 == 3 then ⟨.error e, st2⟩
      else translate_go extract svc key_len fuel (ac + 1) st2

/-- Lines 178-218: `translate(text)`, starting from `attempt_count = 0` with
fresh instrumentation (the plain name `translate` is taken by Mathlib). -/
def translate_text (extract : List Char → List Char)
    (svc : ℕ → Except ApiError Completion) (key_len cur0 : ℕ)
    (ps0 cs0 : ℚ) : TrOutcome :=
  translate_go extract svc key_len 3 0 ⟨cur0, ps0, cs0, [], 0, 0⟩

/-- A length-truncated partial payload: what the service had produced when the
transport then raised — the degraded-length scenario of the spec. -/
def truncPayload : Completion :=
  ⟨[⟨lengthStr, "partial translation".toList⟩], gpt35turbo16k, ⟨100, 50⟩⟩

/-! ## Theorems -/

/-! ### Helper lemmas on lists -/

theorem dropWhile_head_false {α : Type} (p : α → Bool) :
    ∀ (l : List α) (c : α) (rest : List α), l.dropWhile p = c :: rest → p c = false := by
  intro l
  induction l with
  | nil => intro c rest h; simp [List.dropWhile] at h
  | cons a as ih =>
    intro c rest h
    rw [List.dropWhile_cons] at h
    by_cases hp : p a = true
    · rw [if_pos hp] at h; exact ih c rest h
    · rw [if_neg hp] at h
      injection h with h1 _
      subst h1
      simpa using hp

theorem dropWhile_idem {α : Type} (p : α → Bool) (l : List α) :
    (l.dropWhile p).dropWhile p = l.dropWhile p := by
  cases h : l.dropWhile p with
  | nil => simp
  | cons c rest =>
    have hc := dropWhile_head_false p l c rest h
    simp [List.dropWhile_cons, hc]

theorem dropWhile_eq_self_head {α : Type} (p : α → Bool) (c : α) (rest : List α)
    (h : List.dropWhile p (c :: rest) = c :: rest) : p c = false := by
  by_cases hp : p c = true
  · rw [List.dropWhile_cons_of_pos hp] at h
    have hlen := congrArg List.length h
    have hle : (rest.dropWhile p).length ≤ rest.length :=
      (List.dropWhile_sublist (l := rest) (p := p)).length_le
    simp only [List.length_cons] at hlen
    omega
  · simpa using hp

theorem map_eq_self_of_fix {α : Type} (f : α → α) (l : List α)
    (h : ∀ x ∈ l, f x = x) : l.map f = l := by
  induction l with
  | nil => rfl
  | cons a l ih =>
    rw [List.map_cons, h a (by simp), ih (fun x hx => h x (by simp [hx]))]

/-! ### Helper lemmas on pyStrip -/

theorem pyStrip_sublist (s : List Char) : List.Sublist (pyStrip s) s := by
  unfold pyStrip
  have h1 : List.Sublist (s.dropWhile isPySpace) s := List.dropWhile_sublist _
  have h2 : List.Sublist ((s.dropWhile isPySpace).reverse.dropWhile isPySpace)
      (s.dropWhile isPySpace).reverse := List.dropWhile_sublist _
  have h3 := h2.reverse
  rw [List.reverse_reverse] at h3
  exact h3.trans h1

theorem pyStrip_drops_left (s : List Char) :
    (pyStrip s).dropWhile isPySpace = pyStrip s := by
  unfold pyStrip
  cases hu : ((s.dropWhile isPySpace).reverse.dropWhile isPySpace).reverse with
  | nil => simp [hu]
  | cons c rest =>
    have ht : s.dropWhile isPySpace
        = ((s.dropWhile isPySpace).reverse.dropWhile isPySpace).reverse
          ++ ((s.dropWhile isPySpace).reverse.takeWhile isPySpace).reverse := by
      have hsplit := List.takeWhile_append_dropWhile
        (p := isPySpace) (l := (s.dropWhile isPySpace).reverse)
      calc s.dropWhile isPySpace
          = (s.dropWhile isPySpace).reverse.reverse := (List.reverse_reverse _).symm
        _ = ((s.dropWhile isPySpace).reverse.takeWhile isPySpace
              ++ (s.dropWhile isPySpace).reverse.dropWhile isPySpace).reverse := by
              rw [hsplit]
        _ = _ := List.reverse_append _ _
    rw [hu, List.cons_append] at ht
    have hc : isPySpace c = false := dropWhile_head_false isPySpace s c _ ht
    exact List.dropWhile_cons_of_neg (by simp [hc])

theorem pyStrip_idem (s : List Char) : pyStrip (pyStrip s) = pyStrip s := by
  conv_lhs => rw [pyStrip, pyStrip_drops_left s]
  rw [show pyStrip s = ((s.dropWhile isPySpace).reverse.dropWhile isPySpace).reverse from rfl]
  rw [List.reverse_reverse, dropWhile_idem]

theorem pyStrip_fixed_parts (x : List Char) (h : pyStrip x = x) :
    x.dropWhile isPySpace = x ∧ x.reverse.dropWhile isPySpace = x.reverse := by
  have hlen1 : (x.dropWhile isPySpace).length ≤ x.length :=
    (List.dropWhile_sublist (l := x) (p := isPySpace)).length_le
  have hlen2 : (pyStrip x).length ≤ (x.dropWhile isPySpace).length := by
    unfold pyStrip
    rw [List.length_reverse]
    calc ((x.dropWhile isPySpace).reverse.dropWhile isPySpace).length
        ≤ (x.dropWhile isPySpace).reverse.length :=
          (List.dropWhile_sublist _).length_le
      _ = (x.dropWhile isPySpace).length := List.length_reverse _
  rw [h] at hlen2
  have h1 : x.dropWhile isPySpace = x :=
    (List.dropWhile_sublist _).eq_of_length (by omega)
  refine ⟨h1, ?_⟩
  have h2 : (x.reverse.dropWhile isPySpace).reverse = x := by
    have := h
    unfold pyStrip at this
    rwa [h1] at this
  have := congrArg List.reverse h2
  rwa [List.reverse_reverse] at this

/-! ### Helper lemmas on splitlines and joinNL -/

theorem splitlines_noLB (t : List Char) :
    ∀ piece ∈ splitlines t, piece.all (fun c => !isLineBreakChar c) = true := by
  induction t with
  | nil => intro p hp; simp [splitlines] at hp
  | cons c rest ih =>
    intro p hp
    rw [splitlines] at hp
    by_cases hc : isLineBreakChar c = true
    · rw [if_pos hc] at hp
      rcases List.mem_cons.mp hp with rfl | hp
      · simp
      · exact ih p hp
    · rw [if_neg hc] at hp
      cases hsp : splitlines rest with
      | nil =>
        rw [hsp] at hp
        simp only [List.mem_singleton] at hp
        subst hp
        simp [hc]
      | cons l ls =>
        rw [hsp] at hp
        rcases List.mem_cons.mp hp with rfl | hp
        · have hl := ih l (by rw [hsp]; exact List.mem_cons_self _ _)
          simp [List.all_cons, hc, hl]
        · exact ih p (by rw [hsp]; exact List.mem_cons_of_mem _ hp)

theorem splitlines_of_noLB (x : List Char) (hne : x ≠ [])
    (h : x.all (fun c => !isLineBreakChar c) = true) : splitlines x = [x] := by
  induction x with
  | nil => simp at hne
  | cons c rest ih =>
    rw [List.all_cons] at h
    have h2 : (!isLineBreakChar c) = true ∧ (rest.all fun c => !isLineBreakChar c) = true :=
      (Bool.and_eq_true _ _) ▸ h
    rw [splitlines, if_neg (by simp_all)]
    cases hr : rest with
    | nil => subst hr; simp [splitlines]
    | cons d rest2 =>
      subst hr
      rw [ih (by simp) h2.2]

theorem splitlines_append_nl (s t : List Char)
    (h : s.all (fun c => !isLineBreakChar c) = true) :
    splitlines (s ++ '\n' :: t) = s :: splitlines t := by
  induction s with
  | nil =>
    rw [List.nil_append, splitlines, if_pos (by decide)]
  | cons c s2 ih =>
    rw [List.all_cons] at h
    have h2 : (!isLineBreakChar c) = true ∧ (s2.all fun c => !isLineBreakChar c) = true :=
      (Bool.and_eq_true _ _) ▸ h
    rw [List.cons_append, splitlines, if_neg (by simp_all), ih h2.2]

theorem splitlines_joinNL (L : List (List Char))
    (h : ∀ x ∈ L, x ≠ [] ∧ x.all (fun c => !isLineBreakChar c) = true) :
    splitlines (joinNL L) = L := by
  induction L with
  | nil => simp [joinNL, splitlines]
  | cons x xs ih =>
    cases xs with
    | nil =>
      obtain ⟨hne, hnb⟩ := h x (by simp)
      simpa [joinNL] using splitlines_of_noLB x hne hnb
    | cons y ys =>
      obtain ⟨hne, hnb⟩ := h x (by simp)
      rw [show joinNL (x :: y :: ys) = x ++ '\n' :: joinNL (y :: ys) from rfl]
      rw [splitlines_append_nl x _ hnb,
        ih (fun z hz => h z (List.mem_cons_of_mem _ hz))]

/-! ### Helper lemmas on strip_ordinal -/

theorem strip_ordinal_shape (s : List Char) :
    strip_ordinal s = s ∨ ∃ y : List Char, strip_ordinal s = y.dropWhile isPySpace := by
  unfold strip_ordinal
  dsimp only
  split_ifs <;> first | exact Or.inl rfl | exact Or.inr ⟨_, rfl⟩

theorem strip_ordinal_suffix (s : List Char) :
    strip_ordinal s <:+ s := by
  unfold strip_ordinal
  dsimp only
  split_ifs <;>
    first
      | exact List.suffix_refl _
      | exact (List.dropWhile_suffix _).trans (List.drop_suffix _ _)
      | exact (List.dropWhile_suffix _).trans ((List.drop_suffix _ _).trans
          (List.drop_suffix _ _))
      | exact (List.dropWhile_suffix _).trans ((List.drop_suffix _ _).trans
          ((List.drop_suffix _ _).trans (List.drop_suffix _ _)))

theorem strip_ordinal_preserves (x : List Char)
    (hfix : pyStrip x = x) (hnb : x.all (fun c => !isLineBreakChar c) = true) :
    pyStrip (strip_ordinal x) = strip_ordinal x ∧
    (strip_ordinal x).all (fun c => !isLineBreakChar c) = true := by
  obtain ⟨hL, hR⟩ := pyStrip_fixed_parts x hfix
  have hsuf : strip_ordinal x <:+ x := strip_ordinal_suffix x
  constructor
  · have hlead : (strip_ordinal x).dropWhile isPySpace = strip_ordinal x := by
      rcases strip_ordinal_shape x with h | ⟨y, h⟩
      · rw [h]; exact hL
      · rw [h]; exact dropWhile_idem _ _
    have htrail : (strip_ordinal x).reverse.dropWhile isPySpace
        = (strip_ordinal x).reverse := by
      cases hz : (strip_ordinal x).reverse with
      | nil => simp
      | cons c zr =>
        obtain ⟨pre, hpre⟩ := hsuf
        have hxrev : x.reverse = c :: (zr ++ pre.reverse) := by
          rw [← hpre, List.reverse_append, hz, List.cons_append]
        have hc : isPySpace c = false := by
          apply dropWhile_eq_self_head isPySpace c (zr ++ pre.reverse)
          rw [← hxrev]; exact hR
        exact List.dropWhile_cons_of_neg (by simp [hc])
    rw [pyStrip, hlead, htrail, List.reverse_reverse]
  · rw [List.all_eq_true] at hnb ⊢
    intro c hc
    exact hnb c (hsuf.sublist.subset hc)

/-! ### Helper lemmas on split_strip_lines -/

theorem split_strip_lines_mem (t : List Char) :
    ∀ x ∈ split_strip_lines t,
      x ≠ [] ∧ pyStrip x = x ∧ x.all (fun c => !isLineBreakChar c) = true := by
  intro x hx
  unfold split_strip_lines at hx
  rw [List.mem_filter] at hx
  obtain ⟨hmap, hne⟩ := hx
  rw [List.mem_map] at hmap
  obtain ⟨piece, hpiece, rfl⟩ := hmap
  refine ⟨by simpa using hne, pyStrip_idem piece, ?_⟩
  have hp := splitlines_noLB t piece hpiece
  rw [List.all_eq_true] at hp ⊢
  intro c hc
  exact hp c ((pyStrip_sublist piece).subset hc)

theorem split_strip_lines_joinNL (L : List (List Char))
    (h : ∀ x ∈ L, x ≠ [] ∧ pyStrip x = x ∧
      x.all (fun c => !isLineBreakChar c) = true) :
    split_strip_lines (joinNL L) = L := by
  unfold split_strip_lines
  rw [splitlines_joinNL L (fun x hx => ⟨(h x hx).1, (h x hx).2.2⟩)]
  rw [map_eq_self_of_fix _ _ (fun x hx => (h x hx).2.1)]
  rw [List.filter_eq_self.mpr ?_]
  intro a ha
  simp [(h a ha).1]

/-! ### Claim theorems -/

/-- C1: in the retry loop of `get_best_result_list`, a newly parsed result
list replaces the tracked best result exactly when its length equals the
target `N`, or it is strictly longer than the best and at most `N`, or it is
strictly shorter than the best while the best's length exceeds `N`; in every
other case the best is kept unchanged for that iteration — the loop's update
is literally `if accept_result .. then new else best`, and `accept_result` is
equivalent to that three-way condition. -/
theorem c1_acceptance_rule {α : Type} (N : ℕ) (f : ℕ → List α)
    (fuel rc : ℕ) (result best new : List α) :
    (accept_result N best new = true ↔
      (new.length = N ∨ (best.length < new.length ∧ new.length ≤ N) ∨
        (new.length < best.length ∧ N < best.length))) ∧
    (gbrl_loop N f (fuel + 1) rc result best =
      if result.length = N then (best, rc)
      else gbrl_loop N f fuel (rc + 1) (f (rc + 1))
        (if accept_result N best (f (rc + 1)) then f (rc + 1) else best)) := by
  constructor
  · simp only [accept_result, Bool.or_eq_true, Bool.and_eq_true, decide_eq_true_eq]
    tauto
  · rfl

theorem gbrl_loop_retry_le {α : Type} (N : ℕ) (f : ℕ → List α) :
    ∀ (fuel rc : ℕ) (res best : List α),
      (gbrl_loop N f fuel rc res best).2 ≤ rc + fuel := by
  intro fuel
  induction fuel with
  | zero => intro rc res best; simp [gbrl_loop]
  | succ n ih =>
    intro rc res best
    rw [gbrl_loop]
    split
    · simp
    · dsimp only
      exact le_trans (ih (rc + 1) _ _) (by omega)

/-- C5: for every target count and initial parsed list, the retry loop of
`get_best_result_list` performs at most `max_retries` re-translation
iterations (15 at the call site, line 351-356) and returns the tracked best
list with the retry count; the function is total, so a final mismatch never
raises, and success is exactly `length = N` of the returned list. -/
theorem c5_retry_bound {α : Type} (N : ℕ) (f : ℕ → List α) (r0 : List α)
    (m : ℕ) :
    (get_best_result_list N f r0 m).2 ≤ m ∧
    (get_best_result_list N f r0 15).2 ≤ 15 := by
  constructor <;>
    · unfold get_best_result_list
      split
      · simp
      · simpa using gbrl_loop_retry_le N f _ 0 r0 r0

/-- C6: if the initially parsed list already has the target length, then
`get_best_result_list` returns it unchanged with retry count 0, never
entering the retry loop (lines 234-235). -/
theorem c6_immediate_accept {α : Type} (N : ℕ) (f : ℕ → List α)
    (r0 : List α) (m : ℕ) (h : r0.length = N) :
    get_best_result_list N f r0 m = (r0, 0) := by
  unfold get_best_result_list
  rw [if_pos h]

theorem c6_immediate_accept_witness :
    get_best_result_list 2 (fun _ => ([] : List ℕ)) [1, 2] 15 = ([1, 2], 0) :=
  c6_immediate_accept 2 (fun _ => []) [1, 2] 15 rfl

/-- C8: each processed completion with usage data adds
`prompt_tokens * rate` to the prompt total and `completion_tokens * rate` to
the completion total, with rates (3, 4) when the served model contains
`"16k"` and (1.5, 2) otherwise; on the long-context model, usage
(100, 50) adds exactly `100*3 + 50*4`; additions accumulate across calls and
both running totals never decrease. -/
theorem c8_cost_ledger (model : List Char) (pt ct : ℕ) (ps cs : ℚ) :
    (occursIn k16 model = true →
      fare model pt ct ps cs = (ps + pt * 3, cs + ct * 4)) ∧
    (occursIn k16 model = false →
      fare model pt ct ps cs = (ps + pt * (3 / 2), cs + ct * 2)) ∧
    ps ≤ (fare model pt ct ps cs).1 ∧
    cs ≤ (fare model pt ct ps cs).2 ∧
    (occursIn k16 model = true →
      (fare model 100 50 ps cs).1 + (fare model 100 50 ps cs).2
        = ps + cs + (100 * 3 + 50 * 4)) ∧
    (occursIn k16 model = true →
      fare model 100 50 (fare model 100 50 ps cs).1 (fare model 100 50 ps cs).2
        = (ps + 100 * 3 + 100 * 3, cs + 50 * 4 + 50 * 4)) := by
  by_cases h16 : occursIn k16 model = true
  · refine ⟨fun _ => by simp [fare, h16], fun hf => ?_, ?_, ?_,
      fun _ => ?_, fun _ => ?_⟩
    · rw [h16] at hf; cases hf
    · simp only [fare, h16, if_pos]
      have : (0 : ℚ) ≤ (pt : ℚ) * 3 := by positivity
      linarith
    · simp only [fare, h16, if_pos]
      have : (0 : ℚ) ≤ (ct : ℚ) * 4 := by positivity
      linarith
    · simp only [fare, h16, if_pos]
      push_cast
      ring
    · simp only [fare, h16, if_pos]
      push_cast
      ring_nf
  · have h16f : occursIn k16 model = false := by simpa using h16
    refine ⟨fun hf => absurd hf h16, fun _ => by simp [fare, h16f], ?_, ?_,
      fun hf => absurd hf h16, fun hf => absurd hf h16⟩
    · simp only [fare, h16f, Bool.false_eq_true, if_false]
      have : (0 : ℚ) ≤ (pt : ℚ) * (3 / 2) := by positivity
      linarith
    · simp only [fare, h16f, Bool.false_eq_true, if_false]
      have : (0 : ℚ) ≤ (ct : ℚ) * 2 := by positivity
      linarith

theorem c8_cost_ledger_witness :
    fare gpt35turbo16k 100 50 0 0 = ((300 : ℚ), (200 : ℚ)) := by
  have h := (c8_cost_ledger gpt35turbo16k 100 50 0 0).1 (by decide)
  rw [h]
  norm_num

/-- C9: with no private deployment set, `create_chat_completion_2pass` routes
the request to the standard model when the estimated token count is at most
1200 and to the long-context 16k variant when it exceeds 1200; with a
(truthy) deployment id set, the request goes to that deployment and the
token-based routing is bypassed. -/
theorem c9_routing (d : List Char) (tl : ℕ) :
    (tl ≤ 1200 → route_2pass none tl = Route.chatModel gpt35turbo) ∧
    (1200 < tl → route_2pass none tl = Route.chatModel gpt35turbo16k) ∧
    (d ≠ [] → route_2pass (some d) tl = Route.engine d) := by
  refine ⟨fun h => ?_, fun h => ?_, fun h => ?_⟩
  · simp [route_2pass, pyTruthyStr, h]
  · simp [route_2pass, pyTruthyStr, Nat.not_le.mpr h]
  · cases d with
    | nil => exact absurd rfl h
    | cons c cs => simp [route_2pass, pyTruthyStr]

theorem c9_routing_witness :
    route_2pass none 1200 = Route.chatModel gpt35turbo ∧
    route_2pass none 1201 = Route.chatModel gpt35turbo16k ∧
    route_2pass (some ['d']) 0 = Route.engine ['d'] :=
  ⟨(c9_routing [] 1200).1 (by decide), (c9_routing [] 1201).2.1 (by decide),
   (c9_routing ['d'] 0).2.2 (by decide)⟩

/-- C10: the ordinal-stripping step maps `"(3) hello"`, `"3. hello"` and
`"3 hello"` all to `"hello"`. -/
theorem c10_ordinal_strip_examples :
    strip_ordinal "(3) hello".toList = "hello".toList ∧
    strip_ordinal "3. hello".toList = "hello".toList ∧
    strip_ordinal "3 hello".toList = "hello".toList := by
  refine ⟨?_, ?_, ?_⟩ <;> decide

/-- C3: whenever `create_chat_completion_2pass` raises, `get_translation`
re-raises that exception: the local variable `completion` still holds the
empty dict, so the guard of the except branch (`'choices' not in completion`)
always triggers the re-raise and the degraded-success path is unreachable. -/
theorem c3_reraise_always (extract : List Char → List Char) (e : ApiError)
    (cur key_len : ℕ) (ps cs : ℚ) :
    (get_translation extract (Except.error e) cur key_len ps cs).out
        = Except.error e ∧
    exceptReraises CompletionVar.emptyDict = true :=
  ⟨rfl, rfl⟩

/-- C2 (failing evaluation): even when the exception left behind a partial
payload whose last choice finished with reason `"length"`, `get_translation`
re-raises and appends nothing to the long-text sink — the degraded-success
treatment the claim describes does not happen. -/
theorem c2_degraded_branch_dead :
    (get_translation id (Except.error (ApiError.exn (some truncPayload)))
        0 1 0 0).out
      = Except.error (ApiError.exn (some truncPayload)) ∧
    (get_translation id (Except.error (ApiError.exn (some truncPayload)))
        0 1 0 0).longTextLogged = false :=
  ⟨rfl, rfl⟩

/-- C7 (counterexample): the split-and-strip parse is not idempotent for every
input.  A segment consisting only of an ordinal, `"5."`, is stripped to the
empty string, which the re-parse then drops as a blank line; and a segment
`"(1) (2) hello"` loses one leading marker per parse, so the re-parse strips
again. -/
theorem c7_counterexample :
    parse_segments (joinNL (parse_segments "5.".toList))
      ≠ parse_segments "5.".toList ∧
    parse_segments (joinNL (parse_segments "(1) (2) hello".toList))
      ≠ parse_segments "(1) (2) hello".toList := by
  refine ⟨?_, ?_⟩ <;> decide

/-- C7 (amended): the parse is idempotent on every input whose parsed segments
are all nonempty and already free of a leading ordinal marker: re-parsing the
text reassembled from the parser's own output yields the same segment list. -/
theorem c7_idempotent_on_clean (t : List Char)
    (h : ∀ s ∈ parse_segments t, s ≠ [] ∧ strip_ordinal s = s) :
    parse_segments (joinNL (parse_segments t)) = parse_segments t := by
  have hseg : ∀ z ∈ parse_segments t,
      z ≠ [] ∧ pyStrip z = z ∧ z.all (fun c => !isLineBreakChar c) = true := by
    intro z hz
    obtain ⟨hne, hfix⟩ := h z hz
    unfold parse_segments at hz
    rw [List.mem_map] at hz
    obtain ⟨x, hx, rfl⟩ := hz
    obtain ⟨hxne, hxfix, hxnb⟩ := split_strip_lines_mem t x hx
    obtain ⟨hz1, hz2⟩ := strip_ordinal_preserves x hxfix hxnb
    exact ⟨hne, hz1, hz2⟩
  rw [show parse_segments (joinNL (parse_segments t))
      = (split_strip_lines (joinNL (parse_segments t))).map strip_ordinal
    from rfl]
  rw [split_strip_lines_joinNL _ hseg]
  exact map_eq_self_of_fix _ _ (fun z hz => (h z hz).2)

theorem c7_idempotent_on_clean_witness :
    parse_segments (joinNL (parse_segments "(1) hello\n(2) world".toList))
      = parse_segments "(1) hello\n(2) world".toList :=
  c7_idempotent_on_clean "(1) hello\n(2) world".toList (by decide)

theorem get_translation_cur (extract : List Char → List Char)
    (call : Except ApiError Completion) (cur key_len : ℕ) (ps cs : ℚ) :
    (get_translation extract call cur key_len ps cs).cur = rotate_key key_len cur := by
  cases call with
  | error e => rfl
  | ok c =>
    unfold get_translation
    cases hc : (choicesOf (CompletionVar.payload c)).getLast? <;> simp [hc]

theorem translate_go_inv (extract : List Char → List Char)
    (svc : ℕ → Except ApiError Completion) (key_len : ℕ) :
    ∀ (fuel ac : ℕ) (st : TrState),
      ∃ k j : ℕ, k ≤ fuel ∧ j ≤ k ∧
        (translate_go extract svc key_len fuel ac st).st.calls = st.calls + k ∧
        (translate_go extract svc key_len fuel ac st).st.cur
          = (rotate_key key_len)^[k] st.cur ∧
        (translate_go extract svc key_len fuel ac st).st.fails = st.fails + j ∧
        (translate_go extract svc key_len fuel ac st).st.sleeps
          = st.sleeps ++ List.replicate j (60 / key_len) := by
  intro fuel
  induction fuel with
  | zero =>
    intro ac st
    exact ⟨0, 0, le_refl _, le_refl _, by simp [translate_go],
      by simp [translate_go], by simp [translate_go], by simp [translate_go]⟩
  | succ n ih =>
    intro ac st
    rw [translate_go]
    dsimp only
    have hcur := get_translation_cur extract (svc st.calls) st.cur key_len
      st.prompt_spent st.completion_spent
    cases hg : (get_translation extract (svc st.calls) st.cur key_len
        st.prompt_spent st.completion_spent).out with
    | ok t =>
      dsimp only
      by_cases hd : (occursIn directTransKey t && ac == 0) = true
      · rw [if_pos hd]
        obtain ⟨k, j, hk, hj, hcalls, hcur2, hfails, hsleeps⟩ := ih (ac + 1) _
        refine ⟨k + 1, j, by omega, by omega, ?_, ?_, ?_, ?_⟩
        · rw [hcalls]; dsimp only; omega
        · rw [hcur2]; dsimp only; rw [hcur, ← Function.iterate_succ_apply]
        · rw [hfails]
        · rw [hsleeps]
      · rw [if_neg hd]
        by_cases ht : (occursIn transKey t && decide (0 < ac)) = true
        · rw [if_pos ht]
          exact ⟨1, 0, by omega, by omega, by simp, by simp [hcur, Function.iterate_one], by simp, by simp⟩
        · rw [if_neg ht]
          exact ⟨1, 0, by omega, by omega, by simp, by simp [hcur, Function.iterate_one], by simp, by simp⟩
    | error e =>
      dsimp only
      by_cases h3 : (ac + 1 == 3) = true
      · rw [if_pos h3]
        exact ⟨1, 1, by omega, by omega, by simp, by simp [hcur, Function.iterate_one], by simp,
          by simp [List.replicate_succ]⟩
      · rw [if_neg h3]
        obtain ⟨k, j, hk, hj, hcalls, hcur2, hfails, hsleeps⟩ := ih (ac + 1) _
        refine ⟨k + 1, j + 1, by omega, by omega, ?_, ?_, ?_, ?_⟩
        · rw [hcalls]; dsimp only; omega
        · rw [hcur2]; dsimp only; rw [hcur, ← Function.iterate_succ_apply]
        · rw [hfails]; dsimp only; omega
        · rw [hsleeps]; dsimp only
          rw [List.append_assoc, List.replicate_succ, List.singleton_append]

/-- C4: `translate` makes at most 3 `get_translation` attempts per call; the
credential cursor advances exactly once per attempt (at the start of
`get_translation`); every raising attempt records a sleep of
`int(60 / key_len)` seconds; and with a service that always raises, exactly 3
attempts are made, 3 sleeps are recorded, and the exception is re-raised. -/
theorem c4_retry_policy (extract : List Char → List Char)
    (svc : ℕ → Except ApiError Completion) (key_len cur0 : ℕ)
    (ps0 cs0 : ℚ) (e : ApiError) :
    (translate_text extract svc key_len cur0 ps0 cs0).st.calls ≤ 3 ∧
    (translate_text extract svc key_len cur0 ps0 cs0).st.cur
      = (rotate_key key_len)^[(translate_text extract svc key_len cur0 ps0 cs0).st.calls]
          cur0 ∧
    (translate_text extract svc key_len cur0 ps0 cs0).st.sleeps
      = List.replicate (translate_text extract svc key_len cur0 ps0 cs0).st.fails
          (60 / key_len) ∧
    translate_text extract (fun _ => Except.error e) key_len cur0 ps0 cs0
      = ⟨Except.error e,
         ⟨(rotate_key key_len)^[3] cur0, ps0, cs0,
          List.replicate 3 (60 / key_len), 3, 3⟩⟩ := by
  obtain ⟨k, j, hk, hj, hcalls, hcur, hfails, hsleeps⟩ :=
    translate_go_inv extract svc key_len 3 0 ⟨cur0, ps0, cs0, [], 0, 0⟩
  dsimp only at hcalls hcur hfails hsleeps
  refine ⟨?_, ?_, ?_, ?_⟩
  · simp only [translate_text]
    omega
  · simp only [translate_text]
    rw [hcur, hcalls]
    simp
  · simp only [translate_text]
    rw [hsleeps, hfails]
    simp
  · rfl
